import Mathlib

/-!
Shallow embedding of `comisionador.py` (Grupo-LOROs/ComisionadorERA): the
commission rule engine of the `Comisionador2026App`.  Python floats are
modelled as exact rationals (`ℚ`); a float `NaN` (produced by `safe_float`
on missing cells and by the pandas left-join on a missing product key) is
modelled as `Option.none`, an ordinary value as `Option.some q`.
-/

/-- The `CommissionBracket` dataclass: accumulated-sales range `[lim_inf, lim_sup]`
with the four tier rates `p4 p3 p2 p1` (fractions). -/
structure CommissionBracket where
  lim_inf : ℚ
  lim_sup : ℚ
  p4 : ℚ
  p3 : ℚ
  p2 : ℚ
  p1 : ℚ
deriving DecidableEq, Repr

/-- Function `pick_bracket(brackets, total_sales)`: below the lowest `lim_inf` a
zero-rate bracket; otherwise the first bracket whose `[lim_inf, lim_sup]`
contains the total; otherwise the last bracket (clamp).  The empty-list fallback of the source returns an upper bound of `float("inf")`, which has no
exact rational counterpart; it is rendered here with upper bound `0`
(every claim concerns non-empty bracket lists, where the value is unused). -/
def pick_bracket (brackets : List CommissionBracket) (total_sales : ℚ) :
    CommissionBracket :=
  match brackets with
  | [] => ⟨0, 0, 0, 0, 0, 0⟩
  | b0 :: rest =>
    if total_sales < b0.lim_inf then
      ⟨0, b0.lim_inf, 0, 0, 0, 0⟩
    else
      match (b0 :: rest).find?
          (fun b => decide (b.lim_inf ≤ total_sales) &&
                    decide (total_sales ≤ b.lim_sup)) with
      | some b => b
      | none => (b0 :: rest).getLast (List.cons_ne_nil b0 rest)

/-- Function `infer_level(price_to_compare, p4, p3, p2, p1)`: if any input is NaN,
level 4; else the first of `p4, p3, p2` that the price does not exceed
(levels 4, 3, 2), else level 1 (`p1` is only part of the NaN check). -/
def infer_level (price_to_compare p4 p3 p2 p1 : Option ℚ) : ℕ :=
  match price_to_compare, p4, p3, p2, p1 with
  | some pc, some q4, some q3, some q2, some _ =>
    if pc ≤ q4 then 4
    else if pc ≤ q3 then 3
    else if pc ≤ q2 then 2
    else 1
  | _, _, _, _, _ => 4

/-- Function `rate_for_level(bracket, level)`. -/
def rate_for_level (bracket : CommissionBracket) (level : ℕ) : ℚ :=
  if level = 1 then bracket.p1
  else if level = 2 then bracket.p2
  else if level = 3 then bracket.p3
  else bracket.p4

/-!
## Tax-line exclusion (`is_tax_line` / `NON_COMMISSION_PRODUCT_REGEX`)

The source tests the product text against the Python regex
`(?i)\b(iva|i\.?v\.?a\.?|impuesto|tax)\b` with `re.search`.  The regex is
embedded by expanding its three `\.?` optional-dot operators into explicit
literal alternatives: a backtracking search succeeds exactly when some
alternative occurs at some position with a word boundary (`\b`) on each
side.  Word characters (`\w`) are modelled over ASCII (alphanumeric or
underscore); the `(?i)` flag is modelled by lower-casing the text (the
alternatives are already lower-case).
-/

/-- Model of the Python `str.strip()` on a character list: drop whitespace from both
ends (ASCII whitespace; Python also strips other Unicode whitespace). -/
def pyStrip (s : List Char) : List Char :=
  ((s.dropWhile Char.isWhitespace).reverse.dropWhile Char.isWhitespace).reverse

/-- Model of the Python `str.strip()` on a `String`. -/
def pyStripStr (s : String) : String :=
  String.mk (pyStrip s.data)

/-- Word character `\w`: ASCII alphanumeric or underscore. -/
def isWordChar (c : Char) : Bool :=
  c.isAlphanum || c == '_'

/-- Whether position `j` of `s` holds a word character (out of range: no). -/
def wordAt (s : List Char) (j : ℕ) : Bool :=
  match s.drop j with
  | [] => false
  | c :: _ => isWordChar c

/-- Word boundary `\b` at position `j` of `s`: the word-character status changes between
position `j - 1` (out of range for `j = 0`, counting as non-word) and
position `j`. -/
def boundaryAt (s : List Char) (j : ℕ) : Bool :=
  (decide (0 < j) && wordAt s (j - 1)) != wordAt s j

/-- The literal alternative `t` occurs at position `i` of `s`. -/
def occursAt (s : List Char) (i : ℕ) (t : List Char) : Bool :=
  (s.drop i).take t.length == t

/-- Model of `re.search` for an alternation of literal tokens, each match required to
carry a word boundary on both sides. -/
def searchTokens (tokens : List (List Char)) (s : List Char) : Bool :=
  (List.range (s.length + 1)).any fun i =>
    tokens.any fun t =>
      occursAt s i t && boundaryAt s i && boundaryAt s (i + t.length)

/-- The expansion of `iva|i\.?v\.?a\.?|impuesto|tax` into literal
alternatives (the `iva` branch coincides with the no-dot expansion of the
second branch). -/
def taxTokens : List (List Char) :=
  ["iva".data, "iva.".data, "iv.a".data, "iv.a.".data,
   "i.va".data, "i.va.".data, "i.v.a".data, "i.v.a.".data,
   "impuesto".data, "tax".data]

/-- Function `is_tax_line(product_value)`: strip the text; an empty string is not a
tax line; otherwise search for the regex. -/
def is_tax_line (product_value : String) : Bool :=
  let s := pyStrip product_value.data
  if s.isEmpty then false
  else searchTokens taxTokens (s.map Char.toLower)

/-- Reference predicate for the words of the claim: the trimmed, lower-cased text
contains one of the four literal tokens `iva`, `i.v.a.`, `impuesto`, `tax`
as a whole word, i.e. with no word character immediately before or after the
occurrence. -/
def spec_tax_match (product_value : String) : Bool :=
  let s := (pyStrip product_value.data).map Char.toLower
  (List.range (s.length + 1)).any fun i =>
    ["iva".data, "i.v.a.".data, "impuesto".data, "tax".data].any fun t =>
      occursAt s i t && !(decide (0 < i) && wordAt s (i - 1)) &&
      !wordAt s (i + t.length)

/-!
## Valid orders (`norm_ov` / `extract_valid_ovs_from_hoja2`)

A worksheet cell value, as `openpyxl` delivers it to `norm_ov`, is empty
(`None`), a string, an integer or a float.
-/

/-- A cell value of the `Hoja2` worksheet. -/
inductive CellValue where
  | empty : CellValue
  | str : String → CellValue
  | int : ℤ → CellValue
  | float : ℚ → CellValue
deriving DecidableEq, Repr

/-- Function `norm_ov(v)`: `None` renders as `""`, strings are stripped, integers and
integral floats (`v.is_integer()`, here: denominator 1) render without a
decimal point via `str(int(v))`.  The decimal rendering `str(v)` of a
non-integral float is abstracted by a plain rational rendering (the claims
depend on which cells normalize to the empty string, never on the digits of
a non-integral float). -/
def norm_ov (v : CellValue) : String :=
  match v with
  | .empty => ""
  | .str s => pyStripStr s
  | .int n => toString n
  | .float q =>
    if q.den = 1 then toString q.num
    else toString q.num ++ "/" ++ toString q.den

/-- One iteration of the row loop of `extract_valid_ovs_from_hoja2`:
normalize the `ov` and `cruce` cells and add both to the set when both are
non-empty (`if ov and cr`). -/
def addValidRow (valid : List String) (row : CellValue × CellValue) :
    List String :=
  let ov := norm_ov row.1
  let cr := norm_ov row.2
  if ov ≠ "" ∧ cr ≠ "" then (valid.insert ov).insert cr else valid

/-- The row loop of `extract_valid_ovs_from_hoja2` over every data row below
the header.  The Python `set` is modelled as a duplicate-free list
(`List.insert` adds an element only when absent). -/
def extract_valid_ovs_from_hoja2 (rows : List (CellValue × CellValue)) :
    List String :=
  rows.foldl addValidRow []

/-!
## The commission engine (`Comisionador2026App._process_thread`)

`_process_thread` runs on the dataset produced by `_load_base_thread`
(`base_df_all`), the loaded rule tables, the selected date window and the
two option flags.  A dataset row carries the seven parsed columns plus the
product key already normalized at load time (`norm_product_key`).  Dates
are modelled as integers (a day index); the price map as an association
list product key → four optional tier prices (`safe_float` of a missing or
malformed cell is NaN, i.e. `none`).
-/

/-- A row of `base_df_all`. -/
structure BaseRow where
  fecha : ℤ
  asesor : String
  cliente : String
  producto : String
  cantidad : ℚ
  precioBruto : ℚ
  ov : String
  productoKey : String
deriving DecidableEq, Repr

/-- One entry of `Rules2026.price_map`: the four tier prices of a product. -/
structure PriceTiers where
  p4 : Option ℚ
  p3 : Option ℚ
  p2 : Option ℚ
  p1 : Option ℚ
deriving DecidableEq, Repr

/-- A row of the output dataset of the engine (the `DISPLAY_COLS` of the detail
view plus the inferred level). -/
structure OutRow where
  fecha : ℤ
  asesor : String
  cliente : String
  ov : String
  producto : String
  cantidad : ℚ
  precioBruto : ℚ
  precioUnitarioNeto : ℚ
  ventaTotal : ℚ
  precio4 : Option ℚ
  precio3 : Option ℚ
  precio2 : Option ℚ
  precio1 : Option ℚ
  nivel : ℕ
  comision : ℚ
  totalComision : ℚ
deriving DecidableEq, Repr

/-- A row of the summary (`resumen`) table. -/
structure ResumenRow where
  asesor : String
  ventaTotal : ℚ
  totalComision : ℚ
deriving DecidableEq, Repr

/-- The result of the engine: the detail dataset and the summary derived from it. -/
structure EngineOutput where
  detail : List OutRow
  resumen : List ResumenRow
deriving DecidableEq, Repr

/-- Constant `IVA_FACTOR = 1.16` as an exact rational. -/
def IVA_FACTOR : ℚ := 29 / 25

/-- Column `df["Precio Unitario Neto"] = df["Precio Bruto"] * IVA_FACTOR`. -/
def rowNeto (r : BaseRow) : ℚ :=
  r.precioBruto * IVA_FACTOR

/-- Column `df["Venta Total"] = df["Precio Unitario Neto"] * df["Cantidad"]`. -/
def rowVentaTotal (r : BaseRow) : ℚ :=
  rowNeto r * r.cantidad

/-- The merge default of `how="left"`: a product key absent from
`price_map` yields four NaN tier prices. -/
def lookupTiers (price_map : List (String × PriceTiers)) (key : String) :
    PriceTiers :=
  (price_map.lookup key).getD ⟨none, none, none, none⟩

/-- Columns `df["Asesor"] = ...str.strip()` and the same for `Cliente` (the
`fillna("")`/`astype(str)` coercions are implicit in the `String` fields). -/
def stripRows (df0 : List BaseRow) : List BaseRow :=
  df0.map fun r =>
    { r with asesor := pyStripStr r.asesor, cliente := pyStripStr r.cliente }

/-- Grouping `ventas_por_asesor = df.groupby("Asesor")["Venta Total"].sum()`:
accumulated line totals per distinct advisor. -/
def ventas_por_asesor (df : List BaseRow) : List (String × ℚ) :=
  ((df.map (·.asesor)).dedup).map fun a =>
    (a, ((df.filter fun r => r.asesor == a).map rowVentaTotal).sum)

/-- Mapping `bracket_by_asesor = {a: pick_bracket(brackets, v) for a, v in ...}`. -/
def bracket_by_asesor (df : List BaseRow)
    (brackets : List CommissionBracket) :
    List (String × CommissionBracket) :=
  (ventas_por_asesor df).map fun p => (p.1, pick_bracket brackets p.2)

/-- One row of the enriched dataset: net price and line total, tier prices
joined by product key, the level inferred per row (the inlined numpy loop
of `_process_thread` replicates `infer_level`), the rate read off the
bracket of the advisor, by level (a missing advisor yields rate `0.0`, the
`b is None` branch), and `Total comisión = Comisión * Venta Total`. -/
def mkOutRow (price_map : List (String × PriceTiers)) (compare_net : Bool)
    (bba : List (String × CommissionBracket)) (r : BaseRow) : OutRow :=
  let tiers := lookupTiers price_map r.productoKey
  let neto := rowNeto r
  let venta := neto * r.cantidad
  let price_for_level := if compare_net then neto else r.precioBruto
  let nivel :=
    infer_level (some price_for_level) tiers.p4 tiers.p3 tiers.p2 tiers.p1
  let rate :=
    match bba.lookup r.asesor with
    | none => 0
    | some b => rate_for_level b nivel
  { fecha := r.fecha, asesor := r.asesor, cliente := r.cliente,
    ov := r.ov, producto := r.producto, cantidad := r.cantidad,
    precioBruto := r.precioBruto, precioUnitarioNeto := neto,
    ventaTotal := venta,
    precio4 := tiers.p4, precio3 := tiers.p3,
    precio2 := tiers.p2, precio1 := tiers.p1,
    nivel := nivel, comision := rate, totalComision := rate * venta }

/-- The enriched dataset `out = df[DISPLAY_COLS]` of `_process_thread`. -/
def engineDetail (df0 : List BaseRow) (brackets : List CommissionBracket)
    (price_map : List (String × PriceTiers)) (compare_net : Bool) :
    List OutRow :=
  (stripRows df0).map
    (mkOutRow price_map compare_net (bracket_by_asesor (stripRows df0) brackets))

/-- Summary `resumen = out.groupby("Asesor").agg(sum).reset_index()
.sort_values("Asesor")`: computed from the same `out` dataset.  (The
optional `Tipo` column appended for the PDF cover sheet is outside the
claims and not modelled.) -/
def engineResumen (detail : List OutRow) : List ResumenRow :=
  let advisors := ((detail.map (·.asesor)).dedup).insertionSort (· ≤ ·)
  advisors.map fun a =>
    { asesor := a,
      ventaTotal :=
        ((detail.filter fun r => r.asesor == a).map (·.ventaTotal)).sum,
      totalComision :=
        ((detail.filter fun r => r.asesor == a).map (·.totalComision)).sum }

/-- The body of `_process_thread` after the optional date filter. -/
def engineCore (df0 : List BaseRow) (brackets : List CommissionBracket)
    (price_map : List (String × PriceTiers)) (compare_net : Bool) :
    EngineOutput :=
  let detail := engineDetail df0 brackets price_map compare_net
  ⟨detail, engineResumen detail⟩

/-- Swap `if d_ini > d_fin: d_ini, d_fin = d_fin, d_ini` — the lower end of the
date window after the swap. -/
def dateWindowLo (d_ini d_fin : ℤ) : ℤ :=
  if d_ini > d_fin then d_fin else d_ini

/-- The upper end of the date window after the swap. -/
def dateWindowHi (d_ini d_fin : ℤ) : ℤ :=
  if d_ini > d_fin then d_ini else d_fin

/-- Filter `df[(df["Fecha"] >= d_ini) & (df["Fecha"] <= d_fin)]`. -/
def dateFiltered (df : List BaseRow) (d_ini d_fin : ℤ) : List BaseRow :=
  df.filter fun r =>
    decide (dateWindowLo d_ini d_fin ≤ r.fecha) &&
    decide (r.fecha ≤ dateWindowHi d_ini d_fin)

/-- Function `_process_thread`: swap a reversed date window, apply the optional date
filter (raising on an empty result), then run the engine body. -/
def processEngine (df : List BaseRow) (brackets : List CommissionBracket)
    (price_map : List (String × PriceTiers)) (d_ini d_fin : ℤ)
    (filter_date compare_net : Bool) : Except String EngineOutput :=
  if filter_date then
    if (dateFiltered df d_ini d_fin).isEmpty then
      .error "No hay filas después de filtrar por fecha. Desactiva el filtro o cambia rango."
    else
      .ok (engineCore (dateFiltered df d_ini d_fin) brackets price_map
        compare_net)
  else
    .ok (engineCore df brackets price_map compare_net)

/-- Modelled from the spec: the coordinator-rate rule of the Coordinator
Calculator (spec §4.6), a component absent from `src/` (only the workbook
pipeline is in `src/comisionador.py`).  "Coordinator rate: tenure ≤ 5
months → flat 30% regardless of attainment; else attainment < 80% → 20%;
< 100% → 30%; ≥ 100% → 40%."  Percentages are written with `mkRat` (exact
rationals). -/
def coordinator_rate (tenure_months : ℕ) (attainment : ℚ) : ℚ :=
  if tenure_months ≤ 5 then mkRat 30 100
  else if attainment < mkRat 80 100 then mkRat 20 100
  else if attainment < 1 then mkRat 30 100
  else mkRat 40 100

/-!
## Theorems
-/

/-- The containment predicate scanned for by `pick_bracket`. -/
def bracketContains (total : ℚ) (b : CommissionBracket) : Bool :=
  decide (b.lim_inf ≤ total) && decide (total ≤ b.lim_sup)

theorem pick_bracket_eq_find (b0 : CommissionBracket)
    (rest : List CommissionBracket) (total : ℚ)
    (h : ¬ total < b0.lim_inf) :
    pick_bracket (b0 :: rest) total =
      match (b0 :: rest).find? (bracketContains total) with
      | some b => b
      | none => (b0 :: rest).getLast (List.cons_ne_nil b0 rest) := by
  simp only [pick_bracket, if_neg h]
  rfl

theorem find_containing_of_pairwise (total : ℚ) :
    ∀ (l : List CommissionBracket),
      List.Pairwise (fun a b => a.lim_sup < b.lim_inf) l →
      ∀ b ∈ l, b.lim_inf ≤ total → total ≤ b.lim_sup →
        l.find? (bracketContains total) = some b := by
  intro l
  induction l with
  | nil => intro _ b hb; simp at hb
  | cons c t ih =>
    intro hpw b hb hlow hhigh
    rcases List.mem_cons.mp hb with hbc | hbt
    · subst hbc
      have hc : bracketContains total b = true := by
        simp [bracketContains, hlow, hhigh]
      simp [List.find?_cons, hc]
    · have hrel : c.lim_sup < b.lim_inf := (List.pairwise_cons.mp hpw).1 b hbt
      have hc : bracketContains total c = false := by
        simp only [bracketContains, Bool.and_eq_false_iff, decide_eq_false_iff_not,
          not_le]
        right
        linarith
      rw [List.find?_cons, hc]
      exact ih (List.pairwise_cons.mp hpw).2 b hbt hlow hhigh

/-- C1 (amended): `pick_bracket` matches the reference behaviour for a
well-formed bracket table — the claim holds under the full data-model
invariant of spec §3 (non-overlapping intervals sorted ascending by lower
bound, stated as `Pairwise (lim_sup < lim_inf)`, together with
`lim_inf ≤ lim_sup` per bracket), not under sortedness alone: a total
strictly below the lowest lower bound yields four zero rates, a total
contained in the `[lim_inf, lim_sup]` of some bracket (boundaries
inclusive) yields that bracket, and a total above every upper bound yields
the last bracket, never an error. -/
theorem pick_bracket_matches_spec (brackets : List CommissionBracket)
    (total : ℚ) (hne : brackets ≠ [])
    (hwf : List.Pairwise (fun a b => a.lim_sup < b.lim_inf) brackets)
    (hlb : ∀ b ∈ brackets, b.lim_inf ≤ b.lim_sup) :
    (total < (brackets.head hne).lim_inf →
      (pick_bracket brackets total).p4 = 0 ∧
      (pick_bracket brackets total).p3 = 0 ∧
      (pick_bracket brackets total).p2 = 0 ∧
      (pick_bracket brackets total).p1 = 0) ∧
    (∀ b ∈ brackets, b.lim_inf ≤ total → total ≤ b.lim_sup →
      pick_bracket brackets total = b) ∧
    ((∀ b ∈ brackets, b.lim_sup < total) →
      pick_bracket brackets total = brackets.getLast hne) := by
  rcases brackets with _ | ⟨b0, rest⟩
  · exact absurd rfl hne
  refine ⟨?_, ?_, ?_⟩
  · intro hlt
    simp only [List.head_cons] at hlt
    simp [pick_bracket, if_pos hlt]
  · intro b hb hlow hhigh
    have hb0 : b0.lim_inf ≤ b.lim_inf := by
      rcases List.mem_cons.mp hb with hbc | hbt
      · subst hbc; exact le_refl _
      · have h1 : b0.lim_sup < b.lim_inf := (List.pairwise_cons.mp hwf).1 b hbt
        have h2 : b0.lim_inf ≤ b0.lim_sup := hlb b0 (List.mem_cons_self _ _)
        linarith
    have hnotlt : ¬ total < b0.lim_inf := not_lt.mpr (le_trans hb0 hlow)
    rw [pick_bracket_eq_find b0 rest total hnotlt,
      find_containing_of_pairwise total (b0 :: rest) hwf b hb hlow hhigh]
  · intro hall
    have hnotlt : ¬ total < b0.lim_inf := by
      have h1 : b0.lim_inf ≤ b0.lim_sup := hlb b0 (List.mem_cons_self _ _)
      have h2 : b0.lim_sup < total := hall b0 (List.mem_cons_self _ _)
      exact not_lt.mpr (by linarith)
    have hnone : (b0 :: rest).find? (bracketContains total) = none := by
      apply List.find?_eq_none.mpr
      intro b hb
      simp only [bracketContains, Bool.and_eq_true, decide_eq_true_eq, not_and,
        not_le]
      intro _
      exact hall b hb
    rw [pick_bracket_eq_find b0 rest total hnotlt, hnone]

theorem pick_bracket_matches_spec_witness :
    ((10 : ℚ) < 20 →
      (pick_bracket [⟨20, 30, 1, 2, 3, 4⟩] 10).p4 = 0 ∧
      (pick_bracket [⟨20, 30, 1, 2, 3, 4⟩] 10).p3 = 0 ∧
      (pick_bracket [⟨20, 30, 1, 2, 3, 4⟩] 10).p2 = 0 ∧
      (pick_bracket [⟨20, 30, 1, 2, 3, 4⟩] 10).p1 = 0) ∧
    (∀ b ∈ [(⟨20, 30, 1, 2, 3, 4⟩ : CommissionBracket)],
      b.lim_inf ≤ (10 : ℚ) → (10 : ℚ) ≤ b.lim_sup →
      pick_bracket [⟨20, 30, 1, 2, 3, 4⟩] 10 = b) ∧
    ((∀ b ∈ [(⟨20, 30, 1, 2, 3, 4⟩ : CommissionBracket)], b.lim_sup < (10 : ℚ)) →
      pick_bracket [⟨20, 30, 1, 2, 3, 4⟩] 10 =
        List.getLast [⟨20, 30, 1, 2, 3, 4⟩] (by decide)) :=
  pick_bracket_matches_spec [⟨20, 30, 1, 2, 3, 4⟩] 10 (by decide)
    (by simp) (by decide)

/-- C1 (counterexample): under the stated hypothesis alone — a non-empty
list sorted ascending by lower bound — the claim fails on the code.  For
the single bracket `⟨10, 5⟩` (lower bound above upper bound, trivially
sorted) and total `7`, the total exceeds every upper bound, yet
`pick_bracket` returns the zero-rate bracket `⟨0, 10, 0, 0, 0, 0⟩`, not
the last bracket; and for the sorted but overlapping table
`[[0,10], [5,15]]` with total `7`, the second bracket contains the total
yet the first one is returned. -/
theorem pick_bracket_needs_invariant :
    ((7 : ℚ) > (⟨10, 5, 1, 2, 3, 4⟩ : CommissionBracket).lim_sup ∧
      pick_bracket [⟨10, 5, 1, 2, 3, 4⟩] 7 = ⟨0, 10, 0, 0, 0, 0⟩ ∧
      pick_bracket [⟨10, 5, 1, 2, 3, 4⟩] 7 ≠
        List.getLast [⟨10, 5, 1, 2, 3, 4⟩] (by decide)) ∧
    ((⟨5, 15, 5, 6, 7, 8⟩ : CommissionBracket).lim_inf ≤ (7 : ℚ) ∧
      (7 : ℚ) ≤ (⟨5, 15, 5, 6, 7, 8⟩ : CommissionBracket).lim_sup ∧
      pick_bracket [⟨0, 10, 1, 2, 3, 4⟩, ⟨5, 15, 5, 6, 7, 8⟩] 7 ≠
        ⟨5, 15, 5, 6, 7, 8⟩) := by
  decide

/-- C10 (amended): on a total at or above the lowest lower bound but
contained in the interval `[lim_inf, lim_sup]` of no bracket, in
particular on a total in a gap between two consecutive brackets,
`pick_bracket` returns the last bracket of the list — no error and no
zero rates; the result therefore differs from the gap-adjacent brackets
only when the gap does not adjoin the last bracket. -/
theorem pick_bracket_gap_returns_last (brackets : List CommissionBracket)
    (total : ℚ) (hne : brackets ≠ [])
    (hge : (brackets.head hne).lim_inf ≤ total)
    (hgap : ∀ b ∈ brackets, ¬ (b.lim_inf ≤ total ∧ total ≤ b.lim_sup)) :
    pick_bracket brackets total = brackets.getLast hne := by
  rcases brackets with _ | ⟨b0, rest⟩
  · exact absurd rfl hne
  simp only [List.head_cons] at hge
  have hnone : (b0 :: rest).find? (bracketContains total) = none := by
    apply List.find?_eq_none.mpr
    intro b hb
    simp only [bracketContains, Bool.and_eq_true, decide_eq_true_eq]
    exact hgap b hb
  rw [pick_bracket_eq_find b0 rest total (not_lt.mpr hge), hnone]

theorem pick_bracket_gap_returns_last_witness :
    pick_bracket [⟨0, 10, 1, 2, 3, 4⟩, ⟨20, 30, 5, 6, 7, 8⟩] 15 =
      List.getLast [⟨0, 10, 1, 2, 3, 4⟩, ⟨20, 30, 5, 6, 7, 8⟩] (by decide) :=
  pick_bracket_gap_returns_last
    [⟨0, 10, 1, 2, 3, 4⟩, ⟨20, 30, 5, 6, 7, 8⟩] 15 (by decide) (by decide)
    (by decide)

/-- C10 (counterexample): for the table `[[0,10], [20,30]]` and total `15`,
which lies in the gap between the two consecutive brackets, the returned
bracket is `⟨20, 30, ...⟩` — the bracket adjacent above the gap (here also
the last one), contradicting the clause that the result is "not either of
the brackets adjacent to the gap". -/
theorem pick_bracket_gap_adjacent :
    (¬ ((15 : ℚ) <
      (⟨0, 10, 1, 2, 3, 4⟩ : CommissionBracket).lim_inf)) ∧
    (∀ b ∈ [(⟨0, 10, 1, 2, 3, 4⟩ : CommissionBracket), ⟨20, 30, 5, 6, 7, 8⟩],
      ¬ (b.lim_inf ≤ (15 : ℚ) ∧ (15 : ℚ) ≤ b.lim_sup)) ∧
    pick_bracket [⟨0, 10, 1, 2, 3, 4⟩, ⟨20, 30, 5, 6, 7, 8⟩] 15 =
      ⟨20, 30, 5, 6, 7, 8⟩ := by
  decide

/-- C2: `infer_level` matches the reference definition of the spec: any unknown
(NaN) input yields level 4; otherwise the sequential comparisons
`price ≤ p4 → 4`, else `price ≤ p3 → 3`, else `price ≤ p2 → 2`, else level 1
(also when the price exceeds `p1`); a price exactly equal to `p4` yields
level 4. -/
theorem infer_level_matches_spec (price p4 p3 p2 p1 : Option ℚ)
    (pc q4 q3 q2 q1 : ℚ) :
    ((price = none ∨ p4 = none ∨ p3 = none ∨ p2 = none ∨ p1 = none) →
      infer_level price p4 p3 p2 p1 = 4) ∧
    (pc ≤ q4 →
      infer_level (some pc) (some q4) (some q3) (some q2) (some q1) = 4) ∧
    (q4 < pc → pc ≤ q3 →
      infer_level (some pc) (some q4) (some q3) (some q2) (some q1) = 3) ∧
    (q4 < pc → q3 < pc → pc ≤ q2 →
      infer_level (some pc) (some q4) (some q3) (some q2) (some q1) = 2) ∧
    (q4 < pc → q3 < pc → q2 < pc →
      infer_level (some pc) (some q4) (some q3) (some q2) (some q1) = 1) ∧
    (pc = q4 →
      infer_level (some pc) (some q4) (some q3) (some q2) (some q1) = 4) := by
  refine ⟨?_, ?_, ?_, ?_, ?_, ?_⟩
  · intro h
    rcases price with _ | v <;> rcases p4 with _ | v4 <;>
      rcases p3 with _ | v3 <;> rcases p2 with _ | v2 <;>
      rcases p1 with _ | v1 <;> first | rfl | simp at h
  · intro h; simp [infer_level, h]
  · intro h1 h2; simp [infer_level, not_le.mpr h1, h2]
  · intro h1 h2 h3
    simp [infer_level, not_le.mpr h1, not_le.mpr h2, h3]
  · intro h1 h2 h3
    simp [infer_level, not_le.mpr h1, not_le.mpr h2, not_le.mpr h3]
  · intro h; simp [infer_level, le_of_eq h]

theorem infer_level_matches_spec_witness :
    ((some (7 : ℚ) = none ∨ (some (5 : ℚ)) = none ∨ (some (9 : ℚ)) = none ∨
        (some (11 : ℚ)) = none ∨ (some (13 : ℚ)) = none) →
      infer_level (some 7) (some 5) (some 9) (some 11) (some 13) = 4) ∧
    ((7 : ℚ) ≤ 5 →
      infer_level (some 7) (some 5) (some 9) (some 11) (some 13) = 4) ∧
    ((5 : ℚ) < 7 → (7 : ℚ) ≤ 9 →
      infer_level (some 7) (some 5) (some 9) (some 11) (some 13) = 3) ∧
    ((5 : ℚ) < 7 → (9 : ℚ) < 7 → (7 : ℚ) ≤ 11 →
      infer_level (some 7) (some 5) (some 9) (some 11) (some 13) = 2) ∧
    ((5 : ℚ) < 7 → (9 : ℚ) < 7 → (11 : ℚ) < 7 →
      infer_level (some 7) (some 5) (some 9) (some 11) (some 13) = 1) ∧
    ((7 : ℚ) = 5 →
      infer_level (some 7) (some 5) (some 9) (some 11) (some 13) = 4) :=
  infer_level_matches_spec (some 7) (some 5) (some 9) (some 11) (some 13)
    7 5 9 11 13

/-- C8: for fixed known thresholds, `infer_level` is antitone in the
comparison price: `a ≤ b` implies the level at `b` is at most the level at
`a` (levels fall from 4 toward 1 as the price rises). -/
theorem infer_level_antitone (a b q4 q3 q2 q1 : ℚ) (hab : a ≤ b) :
    infer_level (some b) (some q4) (some q3) (some q2) (some q1) ≤
      infer_level (some a) (some q4) (some q3) (some q2) (some q1) := by
  simp only [infer_level]
  by_cases ha4 : a ≤ q4
  · simp only [ha4, if_true]
    split_ifs <;> norm_num
  · have hb4 : ¬ b ≤ q4 := fun h => ha4 (hab.trans h)
    by_cases ha3 : a ≤ q3
    · simp only [ha4, hb4, ha3, if_false, if_true]
      split_ifs <;> norm_num
    · have hb3 : ¬ b ≤ q3 := fun h => ha3 (hab.trans h)
      by_cases ha2 : a ≤ q2
      · simp only [ha4, hb4, ha3, hb3, ha2, if_false, if_true]
        split_ifs <;> norm_num
      · have hb2 : ¬ b ≤ q2 := fun h => ha2 (hab.trans h)
        simp [ha4, hb4, ha3, hb3, ha2, hb2]

theorem infer_level_antitone_witness :
    infer_level (some 8) (some 5) (some 9) (some 11) (some 13) ≤
      infer_level (some 3) (some 5) (some 9) (some 11) (some 13) :=
  infer_level_antitone 3 8 5 9 11 13 (by norm_num)

theorem occursAt_length_lt (s t : List Char) (i : ℕ) (htne : t ≠ [])
    (h : occursAt s i t = true) : i < s.length + 1 := by
  by_contra hge
  have hdrop : s.drop i = [] := List.drop_eq_nil_of_le (by omega)
  rw [occursAt, hdrop, List.take_nil] at h
  exact htne (beq_iff_eq.mp h).symm

theorem searchTokens_eq_true_iff (tokens : List (List Char)) (s : List Char)
    (hne : ∀ t ∈ tokens, t ≠ []) :
    searchTokens tokens s = true ↔
      ∃ t ∈ tokens, ∃ i, occursAt s i t = true ∧ boundaryAt s i = true ∧
        boundaryAt s (i + t.length) = true := by
  unfold searchTokens
  rw [List.any_eq_true]
  constructor
  · rintro ⟨i, _, h⟩
    rw [List.any_eq_true] at h
    rcases h with ⟨t, ht, hb⟩
    rw [Bool.and_eq_true, Bool.and_eq_true] at hb
    exact ⟨t, ht, i, hb.1.1, hb.1.2, hb.2⟩
  · rintro ⟨t, ht, i, h1, h2, h3⟩
    refine ⟨i, List.mem_range.mpr (occursAt_length_lt s t i (hne t ht) h1), ?_⟩
    rw [List.any_eq_true]
    exact ⟨t, ht, by rw [h1, h2, h3]; rfl⟩

/-- C6 (amended): `is_tax_line` drops a product text exactly when its
stripped, lower-cased text carries, between word boundaries, one of the
expanded regex alternatives — `impuesto`, `tax`, or the letters `i`, `v`,
`a` in order with each period independently optional (`iva`, `i.va`,
`iv.a`, `i.v.a`, `iva.`, `i.va.`, `iv.a.`, `i.v.a.`); in particular
"IVA 16%" is dropped and "Televisión" retained. -/
theorem is_tax_line_characterization :
    (∀ p : String, is_tax_line p = true ↔
      ∃ t ∈ taxTokens, ∃ i,
        occursAt ((pyStrip p.data).map Char.toLower) i t = true ∧
        boundaryAt ((pyStrip p.data).map Char.toLower) i = true ∧
        boundaryAt ((pyStrip p.data).map Char.toLower) (i + t.length) = true) ∧
    is_tax_line "IVA 16%" = true ∧ is_tax_line "Televisión" = false := by
  have htok : ∀ t ∈ taxTokens, t ≠ [] := by decide
  refine ⟨?_, by decide, by decide⟩
  intro p
  unfold is_tax_line
  by_cases he : (pyStrip p.data).isEmpty
  · simp only [he, if_true]
    constructor
    · intro h; exact absurd h (by simp)
    · rintro ⟨t, ht, i, hocc, -, -⟩
      exfalso
      have hsnil : pyStrip p.data = [] := List.isEmpty_iff.mp he
      have : i < ([] : List Char).length + 1 := by
        have := occursAt_length_lt ((pyStrip p.data).map Char.toLower) t i
          (htok t ht) hocc
        simpa [hsnil] using this
      rw [occursAt, hsnil] at hocc
      simp only [List.map_nil, List.drop_nil, List.take_nil] at hocc
      exact htok t ht (beq_iff_eq.mp hocc).symm
  · simp only [he, if_false, Bool.false_eq_true]
    exact searchTokens_eq_true_iff taxTokens ((pyStrip p.data).map Char.toLower)
      htok

/-- C6 (counterexample): the product text "I.VA" is dropped by the regex of the code (via the `i.va` alternative of `i\.?v\.?a\.?`), yet it contains none
of the four literal tokens `iva`, `i.v.a.`, `impuesto`, `tax` of the claim
as a case-insensitive whole word. -/
theorem is_tax_line_beyond_spec_tokens :
    is_tax_line "I.VA" = true ∧ spec_tax_match "I.VA" = false := by
  decide

/-- C9: the coordinator-rate rule (spec-modelled `coordinator_rate`):
tenure ≤ 5 months yields a flat 30% whatever the attainment; for tenure
above 5 months, attainment below 0.80 yields 20%, attainment in
`[0.80, 1.00)` yields 30%, and attainment ≥ 1.00 yields 40%. -/
theorem coordinator_rate_rule (t : ℕ) (a : ℚ) :
    (t ≤ 5 → coordinator_rate t a = mkRat 30 100) ∧
    (5 < t → a < mkRat 80 100 → coordinator_rate t a = mkRat 20 100) ∧
    (5 < t → mkRat 80 100 ≤ a → a < 1 → coordinator_rate t a = mkRat 30 100) ∧
    (5 < t → 1 ≤ a → coordinator_rate t a = mkRat 40 100) := by
  have h80 : mkRat 80 100 < 1 := by
    rw [Rat.mkRat_eq_div]; norm_num
  refine ⟨?_, ?_, ?_, ?_⟩
  · intro h; simp [coordinator_rate, h]
  · intro ht ha
    simp [coordinator_rate, Nat.not_le.mpr ht, ha]
  · intro ht ha ha1
    simp [coordinator_rate, Nat.not_le.mpr ht, not_lt.mpr ha, ha1]
  · intro ht ha
    have : ¬ a < mkRat 80 100 := not_lt.mpr (le_trans h80.le ha)
    simp [coordinator_rate, Nat.not_le.mpr ht, this, not_lt.mpr ha]

theorem coordinator_rate_rule_witness :
    coordinator_rate 3 (mkRat 50 100) = mkRat 30 100 ∧
    coordinator_rate 8 (mkRat 79 100) = mkRat 20 100 ∧
    coordinator_rate 8 (mkRat 80 100) = mkRat 30 100 ∧
    coordinator_rate 8 1 = mkRat 40 100 :=
  ⟨(coordinator_rate_rule 3 (mkRat 50 100)).1 (by decide),
   (coordinator_rate_rule 8 (mkRat 79 100)).2.1 (by decide) (by decide),
   (coordinator_rate_rule 8 (mkRat 80 100)).2.2.1 (by decide) (by decide)
     (by decide),
   (coordinator_rate_rule 8 1).2.2.2 (by decide) (by decide)⟩

theorem mem_addValidRow (valid : List String) (row : CellValue × CellValue)
    (x : String) :
    x ∈ addValidRow valid row ↔
      (norm_ov row.1 ≠ "" ∧ norm_ov row.2 ≠ "" ∧
        (x = norm_ov row.1 ∨ x = norm_ov row.2)) ∨ x ∈ valid := by
  by_cases hc : norm_ov row.1 ≠ "" ∧ norm_ov row.2 ≠ ""
  · simp only [addValidRow, if_pos hc, List.mem_insert_iff]
    tauto
  · simp only [addValidRow, if_neg hc]
    tauto

theorem mem_foldl_addValidRow (rows : List (CellValue × CellValue)) :
    ∀ (acc : List String) (x : String),
      x ∈ rows.foldl addValidRow acc ↔
        (∃ row ∈ rows, norm_ov row.1 ≠ "" ∧ norm_ov row.2 ≠ "" ∧
          (x = norm_ov row.1 ∨ x = norm_ov row.2)) ∨ x ∈ acc := by
  induction rows with
  | nil => intro acc x; simp
  | cons r rest ih =>
    intro acc x
    rw [List.foldl_cons, ih, mem_addValidRow]
    simp only [List.mem_cons]
    constructor
    · rintro (⟨row, hrow, h⟩ | (h | h))
      · exact Or.inl ⟨row, Or.inr hrow, h⟩
      · exact Or.inl ⟨r, Or.inl rfl, h⟩
      · exact Or.inr h
    · rintro (⟨row, hrow | hrow, h⟩ | h)
      · subst hrow; exact Or.inr (Or.inl h)
      · exact Or.inl ⟨row, hrow, h⟩
      · exact Or.inr (Or.inr h)

/-- C7: membership in the valid-order set: a value is collected exactly
when some data row has both its normalized `ov` and `cruce` cells
non-empty and the value is one of the two; a row with only one populated
column contributes nothing. -/
theorem extract_valid_ovs_mem (rows : List (CellValue × CellValue))
    (x : String) :
    x ∈ extract_valid_ovs_from_hoja2 rows ↔
      ∃ row ∈ rows, norm_ov row.1 ≠ "" ∧ norm_ov row.2 ≠ "" ∧
        (x = norm_ov row.1 ∨ x = norm_ov row.2) := by
  rw [extract_valid_ovs_from_hoja2, mem_foldl_addValidRow]
  simp

theorem sum_map_if_single (keys : List String) (a0 : String) (c : ℚ)
    (g : String → ℚ) (hnd : keys.Nodup) (ha0 : a0 ∈ keys) :
    (keys.map fun a => if a0 = a then c + g a else g a).sum =
      c + (keys.map g).sum := by
  induction keys with
  | nil => simp at ha0
  | cons b keys ih =>
    rw [List.nodup_cons] at hnd
    rcases List.mem_cons.mp ha0 with h | h
    · subst h
      simp only [List.map_cons, List.sum_cons]
      have hrest :
          (keys.map fun a => if a0 = a then c + g a else g a) = keys.map g := by
        apply List.map_congr_left
        intro a ha
        exact if_neg fun he : a0 = a => hnd.1 (he ▸ ha)
      rw [if_pos trivial, hrest]; ring
    · have hne : a0 ≠ b := fun he => hnd.1 (he ▸ h)
      simp only [List.map_cons, List.sum_cons, if_neg hne]
      rw [ih hnd.2 h]; ring

theorem sum_fiber_eq_sum {α : Type} (k : α → String) (f : α → ℚ) :
    ∀ (L : List α) (keys : List String), keys.Nodup →
      (∀ r ∈ L, k r ∈ keys) →
      (keys.map fun a => ((L.filter fun r => k r == a).map f).sum).sum =
        (L.map f).sum := by
  intro L
  induction L with
  | nil => intro keys _ _; simp
  | cons r L ih =>
    intro keys hnd hcov
    have hcovL : ∀ x ∈ L, k x ∈ keys := fun x hx =>
      hcov x (List.mem_cons_of_mem r hx)
    have hkr : k r ∈ keys := hcov r (List.mem_cons_self r L)
    have hstep :
        (keys.map fun a => (((r :: L).filter fun x => k x == a).map f).sum) =
          keys.map fun a =>
            if k r = a then f r + ((L.filter fun x => k x == a).map f).sum
            else ((L.filter fun x => k x == a).map f).sum := by
      apply List.map_congr_left
      intro a _
      rw [List.filter_cons]
      by_cases h : k r = a
      · rw [if_pos (by simpa using h), if_pos h, List.map_cons, List.sum_cons]
      · rw [if_neg (by simpa using h), if_neg h]
    rw [hstep, sum_map_if_single keys (k r) (f r) _ hnd hkr, List.map_cons,
      List.sum_cons, ih keys hnd hcovL]

theorem engineResumen_advisors_nodup (detail : List OutRow) :
    (((detail.map (·.asesor)).dedup).insertionSort (· ≤ ·)).Nodup :=
  ((List.perm_insertionSort (· ≤ ·) ((detail.map (·.asesor)).dedup)).symm).nodup
    (List.nodup_dedup _)

theorem engineResumen_advisors_cover (detail : List OutRow) (r : OutRow)
    (hr : r ∈ detail) :
    r.asesor ∈ ((detail.map (·.asesor)).dedup).insertionSort (· ≤ ·) := by
  rw [List.mem_insertionSort, List.mem_dedup]
  exact List.mem_map_of_mem _ hr

theorem engineResumen_consistent (detail : List OutRow) :
    (∀ e ∈ engineResumen detail,
      e.ventaTotal =
        ((detail.filter fun r => r.asesor == e.asesor).map (·.ventaTotal)).sum ∧
      e.totalComision =
        ((detail.filter fun r => r.asesor == e.asesor).map
          (·.totalComision)).sum) ∧
    ((engineResumen detail).map (·.ventaTotal)).sum =
      (detail.map (·.ventaTotal)).sum ∧
    ((engineResumen detail).map (·.totalComision)).sum =
      (detail.map (·.totalComision)).sum := by
  refine ⟨?_, ?_, ?_⟩
  · intro e he
    rcases List.mem_map.mp he with ⟨a, _, rfl⟩
    exact ⟨rfl, rfl⟩
  · rw [engineResumen, List.map_map]
    exact sum_fiber_eq_sum (·.asesor) (·.ventaTotal) detail _
      (engineResumen_advisors_nodup detail)
      (engineResumen_advisors_cover detail)
  · rw [engineResumen, List.map_map]
    exact sum_fiber_eq_sum (·.asesor) (·.totalComision) detail _
      (engineResumen_advisors_nodup detail)
      (engineResumen_advisors_cover detail)

theorem processEngine_ok (df : List BaseRow)
    (brackets : List CommissionBracket)
    (price_map : List (String × PriceTiers)) (d_ini d_fin : ℤ)
    (filter_date compare_net : Bool) (out : EngineOutput)
    (h : processEngine df brackets price_map d_ini d_fin filter_date
      compare_net = .ok out) :
    ∃ dff : List BaseRow,
      out = engineCore dff brackets price_map compare_net := by
  unfold processEngine at h
  by_cases hfd : filter_date
  · rw [if_pos hfd] at h
    by_cases he : (dateFiltered df d_ini d_fin).isEmpty
    · rw [if_pos he] at h
      exact absurd h (by simp)
    · rw [if_neg he] at h
      exact ⟨dateFiltered df d_ini d_fin, (Except.ok.inj h).symm⟩
  · rw [if_neg hfd] at h
    exact ⟨df, (Except.ok.inj h).symm⟩

/-- C3: detail/summary consistency.  Whenever the engine succeeds, every
`Venta Total` and `Total comisión` of every summary row equal the sums over the
detail rows of that advisor, and the grand totals of the summary equal the
sums over all detail rows: the summary is derived from the same computed
dataset. -/
theorem engine_detail_resumen_consistent (df : List BaseRow)
    (brackets : List CommissionBracket)
    (price_map : List (String × PriceTiers)) (d_ini d_fin : ℤ)
    (filter_date compare_net : Bool) (out : EngineOutput)
    (h : processEngine df brackets price_map d_ini d_fin filter_date
      compare_net = .ok out) :
    (∀ e ∈ out.resumen,
      e.ventaTotal =
        ((out.detail.filter fun r => r.asesor == e.asesor).map
          (·.ventaTotal)).sum ∧
      e.totalComision =
        ((out.detail.filter fun r => r.asesor == e.asesor).map
          (·.totalComision)).sum) ∧
    (out.resumen.map (·.ventaTotal)).sum =
      (out.detail.map (·.ventaTotal)).sum ∧
    (out.resumen.map (·.totalComision)).sum =
      (out.detail.map (·.totalComision)).sum := by
  rcases processEngine_ok df brackets price_map d_ini d_fin filter_date
    compare_net out h with ⟨dff, rfl⟩
  exact engineResumen_consistent (engineDetail dff brackets price_map
    compare_net)

/-- C4: determinism of the engine: two runs on identical filtered datasets,
rule tables, date-window bounds and flags produce identical output —
per-row levels, rates and commissions, and summary totals included. -/
theorem processEngine_deterministic (df₁ df₂ : List BaseRow)
    (br₁ br₂ : List CommissionBracket)
    (pm₁ pm₂ : List (String × PriceTiers)) (a₁ a₂ b₁ b₂ : ℤ)
    (fd₁ fd₂ cn₁ cn₂ : Bool)
    (hdf : df₁ = df₂) (hbr : br₁ = br₂) (hpm : pm₁ = pm₂)
    (ha : a₁ = a₂) (hb : b₁ = b₂) (hfd : fd₁ = fd₂) (hcn : cn₁ = cn₂) :
    processEngine df₁ br₁ pm₁ a₁ b₁ fd₁ cn₁ =
      processEngine df₂ br₂ pm₂ a₂ b₂ fd₂ cn₂ := by
  subst hdf hbr hpm ha hb hfd hcn
  rfl

/-- C5: the net unit price of every processed row is the gross price times the
fixed factor 1.16 (`IVA_FACTOR`), and its line total is the net price
times the quantity — whatever the value of the net/gross comparison flag
(`compare_net` is universally quantified here and does not appear in the
conclusion). -/
theorem engine_net_and_line_total (df : List BaseRow)
    (brackets : List CommissionBracket)
    (price_map : List (String × PriceTiers)) (d_ini d_fin : ℤ)
    (filter_date compare_net : Bool) (out : EngineOutput)
    (h : processEngine df brackets price_map d_ini d_fin filter_date
      compare_net = .ok out) (r : OutRow) (hr : r ∈ out.detail) :
    r.precioUnitarioNeto = r.precioBruto * IVA_FACTOR ∧
    r.ventaTotal = r.precioUnitarioNeto * r.cantidad := by
  rcases processEngine_ok df brackets price_map d_ini d_fin filter_date
    compare_net out h with ⟨dff, rfl⟩
  have hr' : r ∈ engineDetail dff brackets price_map compare_net := hr
  rw [engineDetail] at hr'
  rcases List.mem_map.mp hr' with ⟨r0, _, rfl⟩
  exact ⟨rfl, rfl⟩

/-- A concrete transaction row for the engine witnesses. -/
def sampleRow : BaseRow :=
  ⟨10, "ANA", "CLIENTE UNO", "TV X", 2, 100, "OV1", "TV X"⟩

/-- A concrete one-bracket table for the engine witnesses. -/
def sampleBrackets : List CommissionBracket :=
  [⟨0, 1000, mkRat 1 100, mkRat 2 100, mkRat 3 100, mkRat 4 100⟩]

/-- A concrete price map for the engine witnesses. -/
def samplePrices : List (String × PriceTiers) :=
  [("TV X", ⟨some 300, some 250, some 200, some 150⟩)]

/-- The engine output on the sample inputs. -/
def sampleOutput : EngineOutput :=
  engineCore [sampleRow] sampleBrackets samplePrices true

theorem engine_detail_resumen_consistent_witness :
    (sampleOutput.resumen.map (·.ventaTotal)).sum =
      (sampleOutput.detail.map (·.ventaTotal)).sum ∧
    (sampleOutput.resumen.map (·.totalComision)).sum =
      (sampleOutput.detail.map (·.totalComision)).sum :=
  (engine_detail_resumen_consistent [sampleRow] sampleBrackets samplePrices
    0 20 false true sampleOutput rfl).2

theorem processEngine_deterministic_witness :
    processEngine [sampleRow] sampleBrackets samplePrices 0 20 false true =
      processEngine [sampleRow] sampleBrackets samplePrices 0 20 false true :=
  processEngine_deterministic [sampleRow] [sampleRow] sampleBrackets
    sampleBrackets samplePrices samplePrices 0 0 20 20 false false true true
    rfl rfl rfl rfl rfl rfl rfl

/-- The single detail row of `sampleOutput`. -/
def sampleDetailRow : OutRow :=
  mkOutRow samplePrices true
    (bracket_by_asesor (stripRows [sampleRow]) sampleBrackets)
    { sampleRow with
        asesor := pyStripStr sampleRow.asesor,
        cliente := pyStripStr sampleRow.cliente }

theorem engine_net_and_line_total_witness :
    sampleDetailRow.precioUnitarioNeto =
      sampleDetailRow.precioBruto * IVA_FACTOR ∧
    sampleDetailRow.ventaTotal =
      sampleDetailRow.precioUnitarioNeto * sampleDetailRow.cantidad :=
  engine_net_and_line_total [sampleRow] sampleBrackets samplePrices
    0 20 false true sampleOutput rfl sampleDetailRow (List.Mem.head _)
